import Mathlib

/-!
Verification of the Chatbot-Guardias media/identity pipeline.

Texts and byte strings are modelled as lists of natural numbers (Unicode
codepoints / byte values).  Each definition below is a shallow embedding of the
corresponding Python function in the repository:

* `is_pdf`, `parse_extracted_text` from `utils/ocr_processor.py`;
* `handle_text_message`, `send_confirmation` from `utils/twilio_client.py`;
* `save_guardia`, `get_guardias`, `clear_guardias` from `utils/file_manager.py`;
* `incoming` from `app.py`.

External effects (HTTP download, OCR, outbound Twilio sends, the JSON file on
disk) are made explicit: OCR is an oracle argument, sends are collected into a
list of `SendEffect`s, and the store file is a `StoreDisk` value threaded
through the functions that touch it.
-/

namespace Guardias

/-- Unicode codepoints of a string literal. -/
def chars (s : String) : List Nat := s.data.map Char.toNat

/-- The record produced by `parse_extracted_text`: a dict with keys
`nombre`, `apellidos`, `rut`; each value is a string or Python `None`. -/
structure IdentityRecord where
  nombre : Option (List Nat)
  apellidos : Option (List Nat)
  rut : Option (List Nat)
  deriving DecidableEq

/-! ## FormatDetector (`is_pdf` in `utils/ocr_processor.py`) -/

/-- The PDF magic header `%PDF`. -/
def pdfMagic : List Nat := chars "%PDF"

/-- `is_pdf`: `file_bytes[:4] == b'%PDF'`.  A Python slice of a shorter byte
string is the whole string, just like `List.take`. -/
def is_pdf (file_bytes : List Nat) : Bool := file_bytes.take 4 == pdfMagic

/-- The two branches `process_media` can take after sniffing the header. -/
inductive MediaFormat where
  | pdf
  | image
  deriving DecidableEq

/-- The branch of `process_media` selected by `is_pdf`: the PDF branch when the
header matches, the raster-image branch otherwise. -/
def classify (file_bytes : List Nat) : MediaFormat :=
  if is_pdf file_bytes then MediaFormat.pdf else MediaFormat.image

/-! ## FieldParser (`parse_extracted_text` in `utils/ocr_processor.py`)

The regular expression in the source is `\d{1,2}\.\d{3}\.\d{3}-[\dkK]`, looked
up with `re.search` (leftmost match).  `\d` is modelled as the decimal digits
`0`-`9` (codepoints 48-57). -/

/-- A decimal digit, `\d`. -/
def isDigit (n : Nat) : Bool := decide (48 ≤ n ∧ n ≤ 57)

/-- The final character class `[\dkK]` of the RUT pattern: a digit, `k` (107)
or `K` (75). -/
def isRutCheck (n : Nat) : Bool := isDigit n || decide (n = 107) || decide (n = 75)

/-- The fixed tail `\.\d{3}\.\d{3}-[\dkK]` of the RUT pattern, as an exact
match on a ten-character string (codepoint 46 is `.`, 45 is `-`). -/
def rutCore (m : List Nat) : Bool :=
  match m with
  | [p1, b, c, d, p2, e, f, g, q, v] =>
    decide (p1 = 46) && isDigit b && isDigit c && isDigit d && decide (p2 = 46) &&
      isDigit e && isDigit f && isDigit g && decide (q = 45) && isRutCheck v
  | _ => false

/-- Exact (whole-string) match of the RUT pattern `\d{1,2}\.\d{3}\.\d{3}-[\dkK]`:
one leading digit or two leading digits, followed by the fixed tail. -/
def matchesRUT (m : List Nat) : Bool :=
  match m with
  | [] => false
  | a0 :: rest =>
    (isDigit a0 && rutCore rest) ||
      (match rest with
       | [] => false
       | a1 :: rest2 => isDigit a0 && isDigit a1 && rutCore rest2)

/-- Match the fixed tail of the pattern against a prefix of `t`, returning the
matched characters. -/
def rutTail (t : List Nat) : Option (List Nat) :=
  match t with
  | p1 :: b :: c :: d :: p2 :: e :: f :: g :: q :: v :: _ =>
    if rutCore [p1, b, c, d, p2, e, f, g, q, v] then
      some [p1, b, c, d, p2, e, f, g, q, v]
    else none
  | _ => none

/-- Match the whole pattern at the start of `t`, with the greedy `\d{1,2}`
of the regex engine: two leading digits are tried first, then one. -/
def rutMatchAt (t : List Nat) : Option (List Nat) :=
  match t with
  | a0 :: a1 :: rest =>
    if isDigit a0 && isDigit a1 then
      match rutTail rest with
      | some m => some (a0 :: a1 :: m)
      | none =>
        match rutTail (a1 :: rest) with
        | some m => some (a0 :: m)
        | none => none
    else if isDigit a0 then
      match rutTail (a1 :: rest) with
      | some m => some (a0 :: m)
      | none => none
    else none
  | _ => none

/-- `re.search` of the RUT pattern: the match at the leftmost position where
one exists, or `None`. -/
def rutSearch : List Nat → Option (List Nat)
  | [] => none
  | c :: rest =>
    match rutMatchAt (c :: rest) with
    | some m => some m
    | none => rutSearch rest

/-- The constant stand-in value assigned to `nombre`. -/
def nombrePlaceholder : List Nat := chars "NombreExtraido"

/-- The constant stand-in value assigned to `apellidos`. -/
def apellidosPlaceholder : List Nat := chars "ApellidosExtraidos"

/-- `parse_extracted_text`: search the text for the RUT pattern; `nombre` and
`apellidos` are assigned the fixed dummy strings. -/
def parse_extracted_text (text : List Nat) : IdentityRecord :=
  { nombre := some nombrePlaceholder
    apellidos := some apellidosPlaceholder
    rut := rutSearch text }

/-! ## RecordStore (`utils/file_manager.py`)

The `guardias.json` file is modelled by what `json.load` sees: missing
(`none`), a JSON array of records, or bytes on which `json.load` raises
`JSONDecodeError` (empty or corrupt file). -/

/-- Contents of an existing `guardias.json` as seen by `json.load`. -/
inductive FileContent where
  | valid : List IdentityRecord → FileContent
  | malformed : FileContent
  deriving DecidableEq

/-- The on-disk store; `none` when `guardias.json` does not exist. -/
abbrev StoreDisk := Option FileContent

/-- `save_guardia`: read the current list (an absent, empty or corrupt file
counts as the empty list), append the record, write the whole list back. -/
def save_guardia (data : IdentityRecord) (disk : StoreDisk) : StoreDisk :=
  let guardias : List IdentityRecord :=
    match disk with
    | none => []
    | some (FileContent.valid l) => l
    | some FileContent.malformed => []
  some (FileContent.valid (guardias ++ [data]))

/-- `get_guardias`: return the stored list; an absent, empty or corrupt file
yields the empty list. -/
def get_guardias (disk : StoreDisk) : List IdentityRecord :=
  match disk with
  | none => []
  | some (FileContent.valid l) => l
  | some FileContent.malformed => []

/-- `clear_guardias`: delete the file (a no-op when it is already absent). -/
def clear_guardias (_disk : StoreDisk) : StoreDisk := none

/-! ## ConversationEngine (`utils/twilio_client.py`)

Incoming text is normalized with `body.strip().lower()`.  `strip` removes the
Python whitespace characters; `lower` is Python `str.lower`, modelled on the
Latin-1 range (the repertoire of every string constant in the program). -/

/-- The characters removed by `str.strip()`: space, tab, LF, CR, VT, FF. -/
def isPySpace (n : Nat) : Bool :=
  decide (n = 32 ∨ n = 9 ∨ n = 10 ∨ n = 13 ∨ n = 11 ∨ n = 12)

/-- `str.strip()`: drop leading and trailing whitespace. -/
def pyStrip (s : List Nat) : List Nat :=
  ((s.dropWhile isPySpace).reverse.dropWhile isPySpace).reverse

/-- `str.lower()` on the Latin-1 range: ASCII `A`-`Z` and the uppercase block
192-222 (`×` = 215 excepted) move 32 codepoints up; everything else is kept. -/
def pyLowerChar (n : Nat) : Nat :=
  if 65 ≤ n ∧ n ≤ 90 then n + 32
  else if 192 ≤ n ∧ n ≤ 222 ∧ n ≠ 215 then n + 32
  else n

/-- `str.lower()` applied characterwise. -/
def pyLower (s : List Nat) : List Nat := s.map pyLowerChar

/-- `body.strip().lower()`, the normalization at the top of
`handle_text_message`. -/
def normalizeText (s : List Nat) : List Nat := pyLower (pyStrip s)

/-- The Python `in` operator on strings: `needle` occurs as a contiguous
substring of `haystack`. -/
def containsSub : List Nat → List Nat → Bool
  | needle, [] => needle.isEmpty
  | needle, h :: rest => needle.isPrefixOf (h :: rest) || containsSub needle rest

/-- One outbound Twilio message: destination number and message body. -/
structure SendEffect where
  toAddr : List Nat
  body : List Nat
  deriving DecidableEq

/-- Reply sent on `"sí"` / `"si"`. -/
def confirmationMessage : List Nat :=
  chars "Gracias por confirmar. Sus datos han sido registrados."

/-- Reply sent on `"no"`. -/
def correctionMessage : List Nat :=
  chars "Por favor, ingrese manualmente sus datos: Nombre, Apellidos, RUT."

/-- Reply sent when the text contains `"registrados"`. -/
def listMessage : List Nat :=
  chars "Actualmente, los guardias registrados son: [lista de guardias]."

/-- Reply sent on any unrecognized command. -/
def defaultMessage : List Nat :=
  chars "Comando no reconocido. Por favor, responda con \x27Sí\x27 o \x27No\x27, o envíe un comando válido."

/-- `handle_text_message`: normalize the body, then dispatch on it.  The
function performs no `file_manager` call on any branch, so the store is
threaded through unchanged; the emitted `send_message` calls are returned as a
list of effects. -/
def handle_text_message (body toAddr : List Nat) (disk : StoreDisk) :
    List SendEffect × StoreDisk :=
  let text := normalizeText body
  if text = chars "sí" ∨ text = chars "si" then
    ([⟨toAddr, confirmationMessage⟩], disk)
  else if text = chars "no" then
    ([⟨toAddr, correctionMessage⟩], disk)
  else if containsSub (chars "registrados") text then
    ([⟨toAddr, listMessage⟩], disk)
  else
    ([⟨toAddr, defaultMessage⟩], disk)

/-- `data.get(key, 'N/A')` as rendered into the f-string of
`send_confirmation`: the keys are always present, and a Python `None` value
prints as `None`. -/
def renderField (v : Option (List Nat)) : List Nat :=
  match v with
  | some s => s
  | none => chars "None"

/-- `send_confirmation`: one outbound message echoing the extracted fields and
asking for confirmation. -/
def send_confirmation (data : IdentityRecord) (toAddr : List Nat) : List SendEffect :=
  [⟨toAddr, chars "Nombre: " ++ renderField data.nombre ++ chars "\n" ++
        chars "Apellidos: " ++ renderField data.apellidos ++ chars "\n" ++
        chars "RUT: " ++ renderField data.rut ++ chars "\n\n" ++
        chars "¿Es correcto? (Sí/No)"⟩]

/-! ## Webhook endpoint (`incoming` in `app.py`)

The download-plus-OCR stage `process_media` is an external capability passed
as an oracle from a media URL to either an error (any exception raised while
downloading, decoding or converting) or the extracted text.  The handler
catches every exception and answers 500; otherwise it answers 200. -/

/-- An HTTP response: body text and status code. -/
structure HttpResponse where
  body : List Nat
  status : Nat
  deriving DecidableEq

/-- The form fields of the inbound webhook call that `incoming` reads. -/
structure IncomingRequest where
  numMedia : Nat
  mediaUrl0 : List Nat
  sender : List Nat
  body : List Nat

/-- The `/incoming` handler: with attached media, run the pipeline on the
first media URL and send the confirmation prompt; otherwise normalize the text
body and dispatch it to `handle_text_message`. -/
def incoming (process_media : List Nat → Except (List Nat) (List Nat))
    (req : IncomingRequest) (disk : StoreDisk) :
    HttpResponse × List SendEffect × StoreDisk :=
  if req.numMedia > 0 then
    match process_media req.mediaUrl0 with
    | Except.error _ => (⟨chars "Error procesando mensaje", 500⟩, [], disk)
    | Except.ok extracted_text =>
      let data := parse_extracted_text extracted_text
      (⟨chars "Mensaje de medios procesado", 200⟩, send_confirmation data req.sender, disk)
  else
    let body := normalizeText req.body
    let result := handle_text_message body req.sender disk
    (⟨chars "Mensaje de texto procesado", 200⟩, result.1, result.2)

/-! ## Format detection (claims C3 and C10) -/

/-- C3: every byte sequence whose first four bytes are the PDF magic signature
`%PDF` is classified as `pdf` by `is_pdf`; every other byte sequence
(including those shorter than four bytes) is classified as `image`. -/
theorem C3_format_detector (b : List Nat) :
    (b.take 4 = pdfMagic → classify b = MediaFormat.pdf) ∧
    (b.take 4 ≠ pdfMagic → classify b = MediaFormat.image) := by
  constructor <;> intro h <;> simp [classify, is_pdf, h]

theorem C3_format_detector_witness :
    ((chars "%PDF-1.4").take 4 = pdfMagic ∧ classify (chars "%PDF-1.4") = MediaFormat.pdf) ∧
    ((chars "JFIF0000").take 4 ≠ pdfMagic ∧ classify (chars "JFIF0000") = MediaFormat.image) :=
  ⟨⟨by decide, (C3_format_detector (chars "%PDF-1.4")).1 (by decide)⟩,
   ⟨by decide, (C3_format_detector (chars "JFIF0000")).2 (by decide)⟩⟩

/-- C10: `is_pdf` is total (it is a total function of the byte list) and every
input shorter than four bytes fails the magic-header comparison, hence is
classified as a raster image. -/
theorem C10_is_pdf_short (b : List Nat) (h : b.length < 4) :
    is_pdf b = false ∧ classify b = MediaFormat.image := by
  have ht : b.take 4 = b := List.take_of_length_le (by omega)
  have hm : pdfMagic.length = 4 := by decide
  have hne : b.take 4 ≠ pdfMagic := by
    rw [ht]
    intro he
    rw [← he] at hm
    omega
  refine ⟨?_, (C3_format_detector b).2 hne⟩
  simp [is_pdf, hne]

theorem C10_is_pdf_short_witness :
    (chars "%PD").length < 4 ∧
      (is_pdf (chars "%PD") = false ∧ classify (chars "%PD") = MediaFormat.image) :=
  ⟨by decide, C10_is_pdf_short (chars "%PD") (by decide)⟩

/-! ## Record store (claims C7 and C8) -/

/-- C7: the store round-trips — after `save_guardia r` the list returned by
`get_guardias` contains `r`, from any prior store state; and after
`clear_guardias` the list is empty. -/
theorem C7_store_roundtrip (r : IdentityRecord) (disk : StoreDisk) :
    r ∈ get_guardias (save_guardia r disk) ∧
      get_guardias (clear_guardias disk) = [] := by
  constructor
  · cases disk with
    | none => simp [save_guardia, get_guardias]
    | some c => cases c <;> simp [save_guardia, get_guardias]
  · simp [clear_guardias, get_guardias]

/-- C8: a store file holding malformed JSON is recovered locally —
`get_guardias` returns the empty list instead of raising, and `save_guardia r`
treats the store as empty, leaving exactly `[r]`. -/
theorem C8_malformed_store (r : IdentityRecord) :
    get_guardias (some FileContent.malformed) = [] ∧
    save_guardia r (some FileContent.malformed) = some (FileContent.valid [r]) ∧
    get_guardias (save_guardia r (some FileContent.malformed)) = [r] := by
  refine ⟨rfl, ?_, ?_⟩ <;> simp [save_guardia, get_guardias]

/-! ## Empty OCR output (claim C1) -/

/-- C1 counterexample: on empty OCR text the parsed record does NOT have all
three fields null — `nombre` and `apellidos` are the constant placeholder
strings; only `rut` is null. -/
theorem C1_counterexample :
    ¬ ((parse_extracted_text (chars "")).nombre = none ∧
       (parse_extracted_text (chars "")).apellidos = none ∧
       (parse_extracted_text (chars "")).rut = none) := by
  intro h
  exact absurd h.1 (by simp [parse_extracted_text])

/-- C1 amended: if OCR yields the empty string, the parsed record has a null
`rut` while `nombre` and `apellidos` hold the fixed placeholder strings, and
the webhook still answers HTTP 200 `Mensaje de medios procesado`, not an
error. -/
theorem C1_empty_ocr (process_media : List Nat → Except (List Nat) (List Nat))
    (req : IncomingRequest) (disk : StoreDisk)
    (hmedia : req.numMedia > 0)
    (hocr : process_media req.mediaUrl0 = Except.ok (chars "")) :
    (incoming process_media req disk).1 = ⟨chars "Mensaje de medios procesado", 200⟩ ∧
    (parse_extracted_text (chars "")).rut = none ∧
    (parse_extracted_text (chars "")).nombre = some nombrePlaceholder ∧
    (parse_extracted_text (chars "")).apellidos = some apellidosPlaceholder := by
  refine ⟨?_, rfl, rfl, rfl⟩
  simp only [incoming]
  rw [if_pos hmedia, hocr]

theorem C1_empty_ocr_witness :
    ((1 : Nat) > 0) ∧
    ((incoming (fun _ => Except.ok (chars ""))
        ⟨1, chars "http://media", chars "whatsapp:+56911111111", chars ""⟩ none).1 =
          ⟨chars "Mensaje de medios procesado", 200⟩ ∧
      (parse_extracted_text (chars "")).rut = none ∧
      (parse_extracted_text (chars "")).nombre = some nombrePlaceholder ∧
      (parse_extracted_text (chars "")).apellidos = some apellidosPlaceholder) :=
  ⟨Nat.one_pos,
   C1_empty_ocr (fun _ => Except.ok (chars ""))
     ⟨1, chars "http://media", chars "whatsapp:+56911111111", chars ""⟩ none
     Nat.one_pos rfl⟩

/-! ## Conversation dispatch (claims C4, C5, C6) -/

/-- C4: on a turn whose trimmed, lowercased text is `sí` or `si`, the engine
emits the confirmation acknowledgment as its only outbound message and the
record store is unchanged — no persistence call happens. -/
theorem C4_confirm_frame (body toAddr : List Nat) (disk : StoreDisk)
    (h : normalizeText body = chars "sí" ∨ normalizeText body = chars "si") :
    handle_text_message body toAddr disk = ([⟨toAddr, confirmationMessage⟩], disk) := by
  simp only [handle_text_message]
  rw [if_pos h]

theorem C4_confirm_frame_witness :
    (normalizeText (chars " Si ") = chars "sí" ∨ normalizeText (chars " Si ") = chars "si") ∧
    handle_text_message (chars " Si ") (chars "whatsapp:+56922222222")
        (some (FileContent.valid [])) =
      ([⟨chars "whatsapp:+56922222222", confirmationMessage⟩],
        some (FileContent.valid [])) :=
  ⟨by decide,
   C4_confirm_frame (chars " Si ") (chars "whatsapp:+56922222222")
     (some (FileContent.valid [])) (by decide)⟩

/-- C6: on a turn whose trimmed, lowercased text is `no`, the engine emits the
correction-request reply only, and the store is unchanged (nothing is appended
and no rejected record is retained anywhere). -/
theorem C6_reject_frame (body toAddr : List Nat) (disk : StoreDisk)
    (h : normalizeText body = chars "no") :
    handle_text_message body toAddr disk = ([⟨toAddr, correctionMessage⟩], disk) := by
  have h1 : ¬ (normalizeText body = chars "sí" ∨ normalizeText body = chars "si") := by
    rw [h]; decide
  simp only [handle_text_message]
  rw [if_neg h1, if_pos h]

theorem C6_reject_frame_witness :
    normalizeText (chars " No ") = chars "no" ∧
    handle_text_message (chars " No ") (chars "whatsapp:+56933333333")
        (some (FileContent.valid [])) =
      ([⟨chars "whatsapp:+56933333333", correctionMessage⟩],
        some (FileContent.valid [])) :=
  ⟨by decide,
   C6_reject_frame (chars " No ") (chars "whatsapp:+56933333333")
     (some (FileContent.valid [])) (by decide)⟩

/-- C5 counterexample: with a record in the store and the text
`cuantos registrados hay`, the emitted list reply is the fixed placeholder —
none of the stored record's contents (rut or name) occur in it, and the very
same reply is emitted when the store is empty. -/
theorem C5_counterexample :
    (handle_text_message (chars "cuantos registrados hay") (chars "whatsapp:+56944444444")
        (some (FileContent.valid
          [⟨some (chars "Ana"), some (chars "Soto"), some (chars "12.345.678-5")⟩]))).1 =
      [⟨chars "whatsapp:+56944444444", listMessage⟩] ∧
    containsSub (chars "12.345.678-5") listMessage = false ∧
    containsSub (chars "Ana") listMessage = false ∧
    (handle_text_message (chars "cuantos registrados hay") (chars "whatsapp:+56944444444")
        none).1 =
      [⟨chars "whatsapp:+56944444444", listMessage⟩] := by
  refine ⟨?_, by decide, by decide, ?_⟩ <;> decide

/-- Auxiliary: a substring occurrence bounds the length of the haystack. -/
theorem containsSub_length (needle haystack : List Nat)
    (h : containsSub needle haystack = true) : needle.length ≤ haystack.length := by
  induction haystack with
  | nil =>
    simp only [containsSub, List.isEmpty_iff] at h
    simp [h]
  | cons a t ih =>
    simp only [containsSub, Bool.or_eq_true] at h
    rcases h with h | h
    · exact List.IsPrefix.length_le (List.isPrefixOf_iff_prefix.mp h)
    · have := ih h
      simp only [List.length_cons]
      omega

/-- C5 amended: on a turn whose normalized text contains the token
`registrados`, the engine emits the fixed placeholder list reply — a constant
string independent of the record store — and the store is unchanged. -/
theorem C5_list_placeholder (body toAddr : List Nat) (disk : StoreDisk)
    (h : containsSub (chars "registrados") (normalizeText body) = true) :
    handle_text_message body toAddr disk = ([⟨toAddr, listMessage⟩], disk) := by
  have hlen : 11 ≤ (normalizeText body).length := by
    have := containsSub_length _ _ h
    simpa using this
  have h1 : ¬ (normalizeText body = chars "sí" ∨ normalizeText body = chars "si") := by
    rintro (he | he) <;> rw [he] at hlen <;> simp [chars] at hlen
  have h2 : ¬ normalizeText body = chars "no" := by
    intro he; rw [he] at hlen; simp [chars] at hlen
  simp only [handle_text_message]
  rw [if_neg h1, if_neg h2, if_pos h]

theorem C5_list_placeholder_witness :
    containsSub (chars "registrados") (normalizeText (chars "cuantos registrados hay")) = true ∧
    handle_text_message (chars "cuantos registrados hay") (chars "whatsapp:+56955555555") none =
      ([⟨chars "whatsapp:+56955555555", listMessage⟩], none) :=
  ⟨by decide,
   C5_list_placeholder (chars "cuantos registrados hay") (chars "whatsapp:+56955555555")
     none (by decide)⟩

/-! ## Normalization algebra (claim C9) -/

/-- Lowercasing never moves a character into or out of the whitespace class. -/
theorem isPySpace_pyLowerChar (n : Nat) : isPySpace (pyLowerChar n) = isPySpace n := by
  unfold pyLowerChar isPySpace
  split
  · rw [decide_eq_decide]; omega
  · split
    · rw [decide_eq_decide]; omega
    · rfl

/-- Lowercasing is idempotent characterwise. -/
theorem pyLowerChar_idem (n : Nat) : pyLowerChar (pyLowerChar n) = pyLowerChar n := by
  by_cases h1 : 65 ≤ n ∧ n ≤ 90
  · have e1 : pyLowerChar n = n + 32 := by unfold pyLowerChar; rw [if_pos h1]
    rw [e1]
    unfold pyLowerChar
    rw [if_neg (by omega), if_neg (by omega)]
  · by_cases h2 : 192 ≤ n ∧ n ≤ 222 ∧ n ≠ 215
    · have e1 : pyLowerChar n = n + 32 := by unfold pyLowerChar; rw [if_neg h1, if_pos h2]
      rw [e1]
      unfold pyLowerChar
      rw [if_neg (by omega), if_neg (by omega)]
    · have e1 : pyLowerChar n = n := by unfold pyLowerChar; rw [if_neg h1, if_neg h2]
      rw [e1, e1]

/-- Lowercasing is idempotent on strings. -/
theorem pyLower_idem (s : List Nat) : pyLower (pyLower s) = pyLower s := by
  unfold pyLower
  rw [List.map_map]
  exact List.map_congr_left fun a _ => pyLowerChar_idem a

/-- Stripping commutes with lowercasing at the dropWhile level. -/
theorem dropWhile_pyLower (s : List Nat) :
    (pyLower s).dropWhile isPySpace = pyLower (s.dropWhile isPySpace) := by
  have hp : (isPySpace ∘ pyLowerChar) = isPySpace := funext isPySpace_pyLowerChar
  unfold pyLower
  rw [List.dropWhile_map, hp]

/-- Reversal commutes with lowercasing. -/
theorem reverse_pyLower (s : List Nat) : (pyLower s).reverse = pyLower s.reverse := by
  unfold pyLower
  rw [List.map_reverse]

/-- Stripping commutes with lowercasing. -/
theorem pyStrip_pyLower (s : List Nat) : pyStrip (pyLower s) = pyLower (pyStrip s) := by
  unfold pyStrip
  rw [dropWhile_pyLower, reverse_pyLower, dropWhile_pyLower, reverse_pyLower]

/-- Dropping a satisfied prefix twice is the same as dropping it once. -/
theorem dropWhile_dropWhile (p : Nat → Bool) (l : List Nat) :
    (l.dropWhile p).dropWhile p = l.dropWhile p := by
  induction l with
  | nil => rfl
  | cons a t ih =>
    rw [List.dropWhile_cons]
    split
    · exact ih
    · next h => rw [List.dropWhile_cons, if_neg h]

/-- The head surviving a dropWhile fails the predicate. -/
theorem dropWhile_head_false (p : Nat → Bool) (l : List Nat) (a : Nat) (t : List Nat)
    (h : l.dropWhile p = a :: t) : p a = false := by
  induction l with
  | nil => simp at h
  | cons b u ih =>
    rw [List.dropWhile_cons] at h
    split at h
    · exact ih h
    · next hb =>
      injection h with h1 _
      rw [← h1]
      exact Bool.not_eq_true _ ▸ hb

/-- Stripping is idempotent. -/
theorem pyStrip_idem (s : List Nat) : pyStrip (pyStrip s) = pyStrip s := by
  set p := isPySpace with hp
  set l1 := s.dropWhile p with hl1
  set l2 := (l1.reverse.dropWhile p) with hl2
  have hstrip : pyStrip s = l2.reverse := rfl
  have claimA : (pyStrip s).dropWhile p = pyStrip s := by
    rw [hstrip]
    cases hc : l2.reverse with
    | nil => rfl
    | cons a t =>
      have hpref : l2.reverse <+: l1 := by
        have hsuf : l2 <:+ l1.reverse := by rw [hl2]; exact List.dropWhile_suffix p
        have := List.reverse_prefix.mpr hsuf
        simpa using this
      have hl1a : ∃ r, l1 = a :: r := by
        rw [hc] at hpref
        obtain ⟨r, hr⟩ := hpref
        exact ⟨t ++ r, by rw [← hr]; simp⟩
      obtain ⟨r, hr⟩ := hl1a
      have hfa : p a = false := dropWhile_head_false p s a r (by rw [← hl1, hr])
      rw [List.dropWhile_cons, if_neg (by simp [hfa])]
  have claimB : (pyStrip s).reverse.dropWhile p = (pyStrip s).reverse := by
    rw [hstrip, List.reverse_reverse, hl2]
    exact dropWhile_dropWhile p l1.reverse
  show ((((pyStrip s).dropWhile p).reverse).dropWhile p).reverse = pyStrip s
  rw [claimA, claimB, List.reverse_reverse]

/-- Normalization (strip then lower) is idempotent. -/
theorem normalizeText_idem (s : List Nat) :
    normalizeText (normalizeText s) = normalizeText s := by
  unfold normalizeText
  rw [pyStrip_pyLower, pyStrip_idem, pyLower_idem]

/-- C9: dispatch is insensitive to case and surrounding whitespace — for every
input string and sender, `handle_text_message` takes the same branch and emits
the same reply (and the same store) as on the trimmed, lowercased form of the
input. -/
theorem C9_normalized_dispatch (s toAddr : List Nat) (disk : StoreDisk) :
    handle_text_message s toAddr disk = handle_text_message (normalizeText s) toAddr disk := by
  simp only [handle_text_message, normalizeText_idem]

/-! ## RUT pattern lemmas (claim C2) -/

/-- Inversion for the fixed tail of the pattern: its exact shape. -/
theorem rutCore_elim (m : List Nat) (h : rutCore m = true) :
    ∃ b c d e f g v, m = [46, b, c, d, 46, e, f, g, 45, v] ∧
      isDigit b = true ∧ isDigit c = true ∧ isDigit d = true ∧
      isDigit e = true ∧ isDigit f = true ∧ isDigit g = true ∧ isRutCheck v = true := by
  unfold rutCore at h
  split at h
  · next p1 b c d p2 e f g q v =>
    simp only [Bool.and_eq_true, decide_eq_true_eq] at h
    obtain ⟨⟨⟨⟨⟨⟨⟨⟨⟨hp1, hb⟩, hc⟩, hd⟩, hp2⟩, he⟩, hf⟩, hg⟩, hq⟩, hv⟩ := h
    subst hp1; subst hp2; subst hq
    exact ⟨b, c, d, e, f, g, v, rfl, hb, hc, hd, he, hf, hg, hv⟩
  · simp at h

/-- A string matching the fixed tail has exactly ten characters. -/
theorem rutCore_length (m : List Nat) (h : rutCore m = true) : m.length = 10 := by
  obtain ⟨b, c, d, e, f, g, v, hm, _⟩ := rutCore_elim m h
  subst hm; rfl

/-- `rutTail` only returns strings matching the fixed tail, and only as a
prefix of its input. -/
theorem rutTail_sound (t m : List Nat) (h : rutTail t = some m) :
    m <+: t ∧ rutCore m = true := by
  unfold rutTail at h
  split at h
  · next p1 b c d p2 e f g q v rest =>
    split at h
    · next hcore =>
      injection h with h1
      subst h1
      exact ⟨⟨rest, rfl⟩, hcore⟩
    · simp at h
  · simp at h

/-- `rutTail` finds every tail-pattern match sitting at the start of its
input. -/
theorem rutTail_complete (t m : List Nat) (hcore : rutCore m = true) (hp : m <+: t) :
    rutTail t = some m := by
  obtain ⟨b, c, d, e, f, g, v, hm, _⟩ := rutCore_elim m hcore
  obtain ⟨r, hr⟩ := hp
  subst hm
  subst hr
  simp only [List.cons_append, List.nil_append]
  simp only [rutTail]
  rw [if_pos hcore]

/-- Introduction for the one-leading-digit form of the full pattern. -/
theorem matchesRUT_intro1 (a0 : Nat) (core : List Nat) (h1 : isDigit a0 = true)
    (h2 : rutCore core = true) : matchesRUT (a0 :: core) = true := by
  unfold matchesRUT
  simp [h1, h2]

/-- Introduction for the two-leading-digit form of the full pattern. -/
theorem matchesRUT_intro2 (a0 a1 : Nat) (core : List Nat) (h0 : isDigit a0 = true)
    (h1 : isDigit a1 = true) (h2 : rutCore core = true) :
    matchesRUT (a0 :: a1 :: core) = true := by
  unfold matchesRUT
  simp [h0, h1, h2]

/-- Inversion for the full pattern: one or two leading digits, then the fixed
tail. -/
theorem matchesRUT_elim (m : List Nat) (h : matchesRUT m = true) :
    (∃ a0 core, m = a0 :: core ∧ isDigit a0 = true ∧ rutCore core = true) ∨
    (∃ a0 a1 core, m = a0 :: a1 :: core ∧ isDigit a0 = true ∧ isDigit a1 = true ∧
      rutCore core = true) := by
  unfold matchesRUT at h
  split at h
  · simp at h
  · next a0 rest =>
    rw [Bool.or_eq_true] at h
    rcases h with h | h
    · rw [Bool.and_eq_true] at h
      exact Or.inl ⟨a0, rest, rfl, h.1, h.2⟩
    · split at h
      · simp at h
      · next a1 rest2 =>
        simp only [Bool.and_eq_true] at h
        exact Or.inr ⟨a0, a1, rest2, rfl, h.1.1, h.1.2, h.2⟩

/-- At a fixed position, the pattern can match in at most one way: two matches
that are both prefixes of the same string are equal. -/
theorem matchesRUT_unique (m1 m2 t : List Nat) (h1 : matchesRUT m1 = true)
    (h2 : matchesRUT m2 = true) (p1 : m1 <+: t) (p2 : m2 <+: t) : m1 = m2 := by
  rcases matchesRUT_elim m1 h1 with ⟨a0, core1, hm1, hd1, hc1⟩ |
      ⟨a0, a1, core1, hm1, hd1, hd1b, hc1⟩ <;>
    rcases matchesRUT_elim m2 h2 with ⟨b0, core2, hm2, he1, hc2⟩ |
        ⟨b0, b1, core2, hm2, he1, he1b, hc2⟩
  · have l1 : m1.length = 11 := by
      rw [hm1]; simp [rutCore_length core1 hc1]
    have l2 : m2.length = 11 := by
      rw [hm2]; simp [rutCore_length core2 hc2]
    have hpp : m1 <+: m2 := List.prefix_of_prefix_length_le p1 p2 (by omega)
    exact hpp.eq_of_length (by omega)
  · have l1 : m1.length = 11 := by
      rw [hm1]; simp [rutCore_length core1 hc1]
    have l2 : m2.length = 12 := by
      rw [hm2]; simp [rutCore_length core2 hc2]
    have hpp : m1 <+: m2 := List.prefix_of_prefix_length_le p1 p2 (by omega)
    obtain ⟨bb, cc, dd, ee, ff, gg, vv, hcore, _⟩ := rutCore_elim core1 hc1
    subst hm1; subst hm2; subst hcore
    rw [List.cons_prefix_cons] at hpp
    obtain ⟨-, hpp2⟩ := hpp
    rw [List.cons_prefix_cons] at hpp2
    obtain ⟨h46, -⟩ := hpp2
    rw [← h46] at he1b
    exact absurd he1b (by decide)
  · have l1 : m1.length = 12 := by
      rw [hm1]; simp [rutCore_length core1 hc1]
    have l2 : m2.length = 11 := by
      rw [hm2]; simp [rutCore_length core2 hc2]
    have hpp : m2 <+: m1 := List.prefix_of_prefix_length_le p2 p1 (by omega)
    obtain ⟨bb, cc, dd, ee, ff, gg, vv, hcore, _⟩ := rutCore_elim core2 hc2
    subst hm1; subst hm2; subst hcore
    rw [List.cons_prefix_cons] at hpp
    obtain ⟨-, hpp2⟩ := hpp
    rw [List.cons_prefix_cons] at hpp2
    obtain ⟨h46, -⟩ := hpp2
    rw [← h46] at hd1b
    exact absurd hd1b (by decide)
  · have l1 : m1.length = 12 := by
      rw [hm1]; simp [rutCore_length core1 hc1]
    have l2 : m2.length = 12 := by
      rw [hm2]; simp [rutCore_length core2 hc2]
    have hpp : m1 <+: m2 := List.prefix_of_prefix_length_le p1 p2 (by omega)
    exact hpp.eq_of_length (by omega)

/-- `rutMatchAt` only returns full-pattern matches sitting at the start of its
input. -/
theorem rutMatchAt_sound (t m : List Nat) (h : rutMatchAt t = some m) :
    m <+: t ∧ matchesRUT m = true := by
  unfold rutMatchAt at h
  split at h
  · next a0 a1 rest =>
    split at h
    · next hd2 =>
      rw [Bool.and_eq_true] at hd2
      split at h
      · next m1 hm1 =>
        injection h with h1
        subst h1
        obtain ⟨⟨r, hr⟩, hcore⟩ := rutTail_sound rest m1 hm1
        refine ⟨⟨r, ?_⟩, matchesRUT_intro2 a0 a1 m1 hd2.1 hd2.2 hcore⟩
        simp [hr]
      · split at h
        · next m1 hm1 =>
          injection h with h1
          subst h1
          obtain ⟨⟨r, hr⟩, hcore⟩ := rutTail_sound (a1 :: rest) m1 hm1
          refine ⟨⟨r, ?_⟩, matchesRUT_intro1 a0 m1 hd2.1 hcore⟩
          simp [hr]
        · simp at h
    · split at h
      · next hd1 =>
        split at h
        · next m1 hm1 =>
          injection h with h1
          subst h1
          obtain ⟨⟨r, hr⟩, hcore⟩ := rutTail_sound (a1 :: rest) m1 hm1
          refine ⟨⟨r, ?_⟩, matchesRUT_intro1 a0 m1 hd1 hcore⟩
          simp [hr]
        · simp at h
      · simp at h
  · simp at h

/-- `rutMatchAt` finds every full-pattern match sitting at the start of its
input. -/
theorem rutMatchAt_complete (t m : List Nat) (hm : matchesRUT m = true) (hp : m <+: t) :
    rutMatchAt t = some m := by
  rcases matchesRUT_elim m hm with ⟨a0, core, hmm, hd0, hcore⟩ |
      ⟨a0, a1, core, hmm, hd0, hd1, hcore⟩
  · obtain ⟨b, c, d, e, f, g, v, hshape, _⟩ := rutCore_elim core hcore
    obtain ⟨r, hr⟩ := hp
    subst hmm; subst hshape; subst hr
    have ht : rutTail ([46, b, c, d, 46, e, f, g, 45, v] ++ r) =
        some [46, b, c, d, 46, e, f, g, 45, v] :=
      rutTail_complete _ _ hcore ⟨r, rfl⟩
    simp only [List.cons_append, List.nil_append] at ht ⊢
    have h46 : isDigit 46 = false := by decide
    simp only [rutMatchAt]
    rw [if_neg (by simp [h46]), if_pos hd0, ht]
  · obtain ⟨b, c, d, e, f, g, v, hshape, _⟩ := rutCore_elim core hcore
    obtain ⟨r, hr⟩ := hp
    subst hmm; subst hshape; subst hr
    have ht : rutTail ([46, b, c, d, 46, e, f, g, 45, v] ++ r) =
        some [46, b, c, d, 46, e, f, g, 45, v] :=
      rutTail_complete _ _ hcore ⟨r, rfl⟩
    simp only [List.cons_append, List.nil_append] at ht ⊢
    simp only [rutMatchAt]
    rw [if_pos (by simp [hd0, hd1]), ht]

/-- When `rutSearch` fails there is no match at any position. -/
theorem rutSearch_none (s : List Nat) (h : rutSearch s = none) (i : Nat) :
    rutMatchAt (s.drop i) = none := by
  induction s generalizing i with
  | nil => rw [List.drop_nil]; rfl
  | cons c rest ih =>
    rw [rutSearch] at h
    cases hm : rutMatchAt (c :: rest) with
    | some m => rw [hm] at h; simp at h
    | none =>
      rw [hm] at h
      simp only at h
      cases i with
      | zero => simpa using hm
      | succ j => simpa using ih h j

/-- When `rutSearch` succeeds, it returns the match at the leftmost position
carrying one. -/
theorem rutSearch_some (s m : List Nat) (h : rutSearch s = some m) :
    ∃ i, rutMatchAt (s.drop i) = some m ∧ ∀ j, j < i → rutMatchAt (s.drop j) = none := by
  induction s generalizing m with
  | nil => simp [rutSearch] at h
  | cons c rest ih =>
    rw [rutSearch] at h
    cases hm : rutMatchAt (c :: rest) with
    | some m1 =>
      rw [hm] at h
      simp only [Option.some.injEq] at h
      subst h
      exact ⟨0, by simpa using hm, fun j hj => absurd hj (Nat.not_lt_zero j)⟩
    | none =>
      rw [hm] at h
      simp only at h
      obtain ⟨i, hi, hj⟩ := ih m h
      refine ⟨i + 1, by simpa using hi, ?_⟩
      intro j hjlt
      cases j with
      | zero => simpa using hm
      | succ j2 => simpa using hj j2 (by omega)

/-- C2: `parse_extracted_text` is a total function of the input string, and
its `rut` field is either null — in which case no substring of the input
matches the RUT pattern — or the unique match at the leftmost position where
the pattern matches, matching the pattern exactly. -/
theorem C2_parse_rut_first_match (text : List Nat) :
    ((parse_extracted_text text).rut = none ∧
      ∀ i m, matchesRUT m = true → ¬ m <+: text.drop i) ∨
    (∃ i m, (parse_extracted_text text).rut = some m ∧ matchesRUT m = true ∧
      m <+: text.drop i ∧
      (∀ j mj, j < i → matchesRUT mj = true → ¬ mj <+: text.drop j) ∧
      ∀ mi, matchesRUT mi = true → mi <+: text.drop i → mi = m) := by
  cases hs : rutSearch text with
  | none =>
    left
    refine ⟨by simp [parse_extracted_text, hs], ?_⟩
    intro i m hm hp
    have hsm := rutMatchAt_complete (text.drop i) m hm hp
    rw [rutSearch_none text hs i] at hsm
    simp at hsm
  | some m =>
    right
    obtain ⟨i, hi, hj⟩ := rutSearch_some text m hs
    obtain ⟨hp, hm⟩ := rutMatchAt_sound _ _ hi
    refine ⟨i, m, by simp [parse_extracted_text, hs], hm, hp, ?_, ?_⟩
    · intro j mj hjlt hmj hpj
      have hcontra := rutMatchAt_complete (text.drop j) mj hmj hpj
      rw [hj j hjlt] at hcontra
      simp at hcontra
    · intro mi hmi hpi
      exact matchesRUT_unique mi m (text.drop i) hmi hm hpi hp

end Guardias
